import Mathlib

/-!
Verification of the PUDL EIA-923 / EIA-860 schema-normalization layer.

This file gives a shallow embedding of the value-cleaning and table-transform
functions of `pudl/eia923.py` and `pudl/transform/eia860.py`, and proves the
spec claims about them.

A cell value is either missing (pandas NaN/None), a number, a string, or a
boolean.  Numbers are modelled as rationals.  A table row is an association
list from column names to cell values; a table is a list of rows.  All string
primitives are reimplemented structurally on `List Char` so that every
definition is kernel-computable (the corresponding core `String` functions do
not reduce in the kernel).
-/

inductive Value where
  | na : Value
  | num : Rat → Value
  | str : String → Value
  | bool : Bool → Value
deriving DecidableEq

abbrev Row := List (String × Value)

/-! ### String primitives (kernel-computable) -/

/-- `listStartsWith s pat` is true when `pat` is a prefix of `s`
(python `s[:len(pat)] == pat`). -/
def listStartsWith : List Char → List Char → Bool
  | _, [] => true
  | [], _ :: _ => false
  | a :: as, b :: bs => a == b && listStartsWith as bs

/-- `subOccurs pat s` is true when `pat` occurs as a contiguous substring of
`s` (python `re.search` of a literal pattern). -/
def subOccurs (pat : List Char) : List Char → Bool
  | [] => pat.isEmpty
  | c :: cs => listStartsWith (c :: cs) pat || subOccurs pat cs

/-- Replace every (non-overlapping, leftmost-first) occurrence of `pat` by
`rep` (python `str.replace`, or `re.sub` for a literal pattern).  `fuel`
bounds the recursion; it is always called with `fuel = length of the text`,
which suffices because each step consumes at least one character. -/
def replaceSubF (pat rep : List Char) : Nat → List Char → List Char
  | _, [] => []
  | 0, s => s
  | fuel + 1, c :: cs =>
    if pat ≠ [] ∧ listStartsWith (c :: cs) pat then
      rep ++ replaceSubF pat rep fuel (List.drop pat.length (c :: cs))
    else
      c :: replaceSubF pat rep fuel cs

/-- `strContains s pat`: does the literal pattern `pat` occur in `s`?
This is `pandas.DataFrame.filter(regex=pat)` matching for the literal
month patterns used by the EIA-923 month dictionary. -/
def strContains (s pat : String) : Bool := subOccurs pat.data s.data

/-- `strReplace s pat rep`: replace all occurrences of the literal pattern
`pat` in `s` by `rep` (pandas `str.replace(pat, rep)`). -/
def strReplace (s pat rep : String) : String :=
  String.mk (replaceSubF pat.data rep.data s.data.length s.data)

/-- Apply a character-for-character transformation (python `str.upper`,
`str.lower`, or a single-character regex substitution). -/
def strCharMap (f : Char → Char) (s : String) : String := String.mk (s.data.map f)

/-- Python `str.upper()`. -/
def strUpper (s : String) : String := strCharMap Char.toUpper s

/-- Python `str.lower()`. -/
def strLower (s : String) : String := strCharMap Char.toLower s

/-- Python `str.strip()`: remove leading and trailing whitespace. -/
def strStrip (s : String) : String :=
  String.mk (((s.data.dropWhile Char.isWhitespace).reverse.dropWhile
    Char.isWhitespace).reverse)

/-! ### Row / column primitives (the pandas column operations used in src) -/

/-- `df[name]` for one row: the cell value under column `name`, or missing
when the row has no such column. -/
def getCol (name : String) : Row → Value
  | [] => Value.na
  | c :: r => if c.1 = name then c.2 else getCol name r

/-- Does the row have a cell under column `name`? -/
def hasCol (name : String) : Row → Bool
  | [] => false
  | c :: r => c.1 = name || hasCol name r

/-- Overwrite every cell labelled `name` with value `v`. -/
def overwriteCol (name : String) (v : Value) : Row → Row
  | [] => []
  | c :: r => (if c.1 = name then (c.1, v) else c) :: overwriteCol name v r

/-- `df[name] = v` for one row: overwrite the cells labelled `name`, or
append a new cell when the column is absent (pandas column assignment). -/
def setCol (name : String) (v : Value) (r : Row) : Row :=
  if hasCol name r then overwriteCol name v r else r ++ [(name, v)]

/-- `df[name] = f(df[name])` for one row: transform the cells labelled
`name`, leaving all other cells untouched.  A pandas column operation on an
absent column would raise; the model leaves the row unchanged. -/
def mapCol (name : String) (f : Value → Value) : Row → Row
  | [] => []
  | c :: r => (if c.1 = name then (c.1, f c.2) else c) :: mapCol name f r

/-- Apply a value transformation to every cell of a row (a whole-table
`DataFrame.replace`). -/
def mapRow (f : Value → Value) (r : Row) : Row :=
  r.map (fun c => (c.1, f c.2))

/-! ### Basic lemmas about the row primitives -/

/-! ### Value-level cleaning operations

These model, cell by cell, the pandas calls appearing in
`pudl/eia923.py` and `pudl/transform/eia860.py`. -/

/-- `Series.str.upper()`.  The pandas `.str` accessor maps every
non-string cell (including NaN) to NaN. -/
def strUpperVal : Value → Value
  | Value.str s => Value.str (strUpper s)
  | _ => Value.na

/-- `Series.str.strip()`, with the same `.str` accessor semantics. -/
def strStripVal : Value → Value
  | Value.str s => Value.str (strStrip s)
  | _ => Value.na

/-- One character of `Series.replace('[\s+]', ' ', regex=True)`: the pattern
is a character class containing the whitespace characters and the literal
plus sign, so each single such character is replaced by one space. -/
def wsPlusChar (c : Char) : Char :=
  if c.isWhitespace ∨ c = '+' then ' ' else c

/-- `Series.replace('[\s+]', ' ', regex=True)` on one cell: regex
replacement applies to string cells and leaves other cells unchanged. -/
def wsPlusVal : Value → Value
  | Value.str s => Value.str (strCharMap wsPlusChar s)
  | v => v

/-- One pass of the `cleanstringsEIA923` loop body,
`field.replace(stringmap[k], k)`: a cell equal to one of the strings in the
list is replaced by the canonical key `k`. -/
def synonymStep (p : String × List String) (v : Value) : Value :=
  match v with
  | Value.str s => if p.2.contains s then Value.str p.1 else Value.str s
  | v => v

/-- `cleanstringsEIA923(field, stringmap, unmapped)` from `pudl/eia923.py`:
upper-case and strip each cell, apply the `'[\s+]' -> ' '` regex
replacement, apply the synonym map in iteration order, and finally (when
`unmapped` is given) replace every value that is not a canonical key with
the `unmapped` substitute (numpy `setdiff1d` of the remaining values against
the keys, then one more `replace`). -/
def cleanstringsEIA923 (field : List Value)
    (stringmap : List (String × List String)) (unmapped : Option Value) :
    List Value :=
  let f1 := field.map strUpperVal
  let f2 := f1.map strStripVal
  let f3 := f2.map wsPlusVal
  let f4 := stringmap.foldl (fun f p => f.map (synonymStep p)) f3
  match unmapped with
  | none => f4
  | some u =>
      f4.map (fun v =>
        if stringmap.any (fun p => v == Value.str p.1) then v else u)

/-- `fillna('False')` on one cell of a boolean-fix column: a missing value
becomes the *string* `'False'` (the source fills with a string literal). -/
def fillnaFalse : Value → Value
  | Value.na => Value.str "False"
  | v => v

/-- `replace(to_replace=["Y", "N"], value=[True, False])` on one cell. -/
def ynReplace : Value → Value
  | Value.str s => if s = "Y" then Value.bool true
      else if s = "N" then Value.bool false else Value.str s
  | v => v

/-- The body of the `boolean_columns_to_fix` loops in
`pudl/transform/eia860.py` (generators, plants and utilities transformers):
`fillna('False')` followed by the Y/N-to-boolean replacement. -/
def boolFix (v : Value) : Value := ynReplace (fillnaFalse v)

/-- Modelled from the spec: `pudl.helpers.fix_eia_na` is not under `src`;
spec section 4.3 (`coerce_missing_sentinels`) says it replaces cells holding
a single period character or pure whitespace (including the empty string)
with an explicit missing-value marker, uniformly across all columns. -/
def fix_eia_na_val : Value → Value
  | Value.str s => if s = "." ∨ strStrip s = "" then Value.na else Value.str s
  | v => v

/-- `replace(to_replace='X', value='N')` on one cell. -/
def xToN : Value → Value
  | Value.str s => if s = "X" then Value.str "N" else Value.str s
  | v => v

/-- `replace(to_replace='U', value=None)` on one cell, per the source's
stated intent (the comment in the source says the `'U'` values "must be set
to None in order to convert the columns to datatype Boolean"). -/
def uToNa : Value → Value
  | Value.str s => if s = "U" then Value.na else Value.str s
  | v => v

/-- `replace(to_replace=[" ", 0], value=np.nan)` on one cell (the
`columns_to_fix` loop of the generators transformer). -/
def zeroSpaceToNa (v : Value) : Value :=
  if v = Value.str " " ∨ v = Value.num 0 then Value.na else v

/-- The 2011 ownership unit conversion, `fraction_owned / 100`, on one cell.
Division propagates missing values (NaN / 100 is NaN); a non-numeric cell
would raise in pandas and is left unchanged here. -/
def div100 : Value → Value
  | Value.num q => Value.num (q / 100)
  | Value.na => Value.na
  | v => v

/-- `astype(int)` on one numeric cell: floats truncate toward zero (the id
columns this is applied to are non-negative, so `Rat.floor` agrees).  A
missing or non-numeric cell would raise in pandas and is left unchanged. -/
def astypeInt : Value → Value
  | Value.num q => Value.num (Rat.floor q : Int)
  | v => v

/-! ### Helper lemmas for map/fold identities -/

/-- A synonym map on which re-applying `cleanstringsEIA923` is not a no-op:
the canonical key `"A"` also occurs in the synonym list of the key `"B"`. -/
def stringmapC8 : List (String × List String) := [("B", ["A"]), ("A", ["X"])]

/-! ### EIA-860 table transformers (`pudl/transform/eia860.py`)

Tables are lists of rows; a transformer is a function of the page tables.
Steps implemented with `pudl.helpers` functions that are not under `src`
(`convert_to_date`, `month_year_to_date`, `strip_lower`, the helpers
variant of `cleanstrings`) only combine date cells or canonicalize cells
untouched by the claims; they are row-count-preserving per-row operations
and are modelled where a claim needs them (see `fix_eia_na_val`), noted
otherwise. -/

/-- The body of a `for column in ...:` loop from the source: apply a cell
operation to the named column of every row, for each listed column. -/
def fixColumns (cols : List String) (f : Value → Value) (df : List Row) :
    List Row :=
  cols.foldl (fun d c => d.map (mapCol c f)) df

/-- The generators dropna test: a row is kept when neither its
`generator_id` nor its `plant_id_eia` cell is missing
(`dropna(subset=['generator_id', 'plant_id_eia'])`). -/
def hasIds (r : Row) : Bool :=
  !(getCol "generator_id" r == Value.na) &&
    !(getCol "plant_id_eia" r == Value.na)

/-- `columns_to_fix` of the generators transformer: numeric fields in which
a reported zero (or a lone space) is a sentinel for not-applicable. -/
def generator_columns_to_fix : List String :=
  ["planned_retirement_month",
   "planned_retirement_year",
   "planned_uprate_month",
   "planned_uprate_year",
   "other_modifications_month",
   "other_modifications_year",
   "planned_derate_month",
   "planned_derate_year",
   "planned_repower_month",
   "planned_repower_year",
   "planned_net_summer_capacity_derate_mw",
   "planned_net_summer_capacity_uprate_mw",
   "planned_net_winter_capacity_derate_mw",
   "planned_net_winter_capacity_uprate_mw",
   "planned_new_capacity_mw",
   "nameplate_power_factor",
   "minimum_load_mw",
   "winter_capacity_mw",
   "summer_capacity_mw"]

/-- `boolean_columns_to_fix` of the generators transformer. -/
def generators_boolean_columns : List String :=
  ["duct_burners",
   "multiple_fuels",
   "deliver_power_transgrid",
   "syncronized_transmission_grid",
   "solid_fuel_gasification",
   "pulverized_coal_tech",
   "fluidized_bed_tech",
   "subcritical_tech",
   "supercritical_tech",
   "ultrasupercritical_tech",
   "carbon_capture",
   "stoker_tech",
   "other_combustion_tech",
   "cofire_fuels",
   "switch_oil_gas",
   "heat_bypass_recovery",
   "associated_combined_heat_power",
   "planned_modifications",
   "other_planned_modifications",
   "uprate_derate_during_year",
   "previously_canceled"]

/-- The generators transformer (`generators` in `pudl/transform/eia860.py`):
tag and concatenate the proposed/existing/retired sub-tables, drop rows with
a missing generator or plant id, replace missing-data sentinels, fix
zero-as-NA columns, rewrite `'X'` codes, assign
`syncronized_transmission_grid` from `heat_bypass_recovery` (as the source
does), rewrite `'U'` codes, apply the boolean fixes and coerce the id
columns.  The trailing `pudl.helpers` steps (month/date assembly, the
derived `fuel_type_code_pudl` column, `strip_lower` on the two RTO columns)
and the `generator_id` string coercion only rewrite cells no modelled claim
reads and are omitted. -/
def generators (eia860_dfs : String → List Row) : List Row :=
  let gp_df := (eia860_dfs "generator_proposed").map
    (setCol "operational_status_code" (Value.str "proposed"))
  let ge_df := (eia860_dfs "generator_existing").map
    (setCol "operational_status_code" (Value.str "existing"))
  let gr_df := (eia860_dfs "generator_retired").map
    (setCol "operational_status_code" (Value.str "retired"))
  let gens1 := ge_df ++ gp_df ++ gr_df
  let gens2 := gens1.filter hasIds
  let gens3 := gens2.map (mapRow fix_eia_na_val)
  let gens4 := fixColumns generator_columns_to_fix zeroSpaceToNa gens3
  let gens5 := gens4.map (mapCol "duct_burners" xToN)
  let gens6 := gens5.map (mapCol "heat_bypass_recovery" xToN)
  let gens7 := gens6.map (fun r =>
    setCol "syncronized_transmission_grid"
      (xToN (getCol "heat_bypass_recovery" r)) r)
  let gens8 := gens7.map (mapCol "multiple_fuels" uToNa)
  let gens9 := gens8.map (mapCol "switch_oil_gas" uToNa)
  let gens10 := fixColumns generators_boolean_columns boolFix gens9
  let gens11 := gens10.map (mapCol "plant_id_eia" astypeInt)
  let gens12 := gens11.map (mapCol "utility_id_eia" astypeInt)
  gens12

/-- `boolean_columns_to_fix` of the plants transformer. -/
def plants_boolean_columns : List String :=
  ["ferc_cogen_status",
   "ferc_small_power_producer",
   "ferc_exempt_wholesale_generator",
   "ash_impoundment",
   "ash_impoundment_lined",
   "energy_storage",
   "natural_gas_storage",
   "liquefied_natural_gas_storage"]

/-- `astype(str)` on one cell (`zip_code` in the plants transformer).
Pandas renders a missing cell as the string `"nan"` and booleans with
python capitalization; the decimal rendering of a non-integral float
differs from Lean's rational rendering, which no claim reads. -/
def astypeStr : Value → Value
  | Value.num q => Value.str (toString q)
  | Value.na => Value.str "nan"
  | Value.bool b => Value.str (if b then "True" else "False")
  | Value.str s => Value.str s

/-- The plants transformer (`plants` in `pudl/transform/eia860.py`):
replace missing-data sentinels, cast `zip_code` to string, rewrite `'X'`
codes in the three storage/ash columns, apply the boolean fixes and coerce
the id columns (`convert_to_date` is a `pudl.helpers` date-assembly step,
omitted as above). -/
def plants (eia860_dfs : String → List Row) : List Row :=
  let p1 := (eia860_dfs "plant").map (mapRow fix_eia_na_val)
  let p2 := p1.map (mapCol "zip_code" astypeStr)
  let p3 := p2.map (mapCol "ash_impoundment_lined" xToN)
  let p4 := p3.map (mapCol "natural_gas_storage" xToN)
  let p5 := p4.map (mapCol "liquefied_natural_gas_storage" xToN)
  let p6 := fixColumns plants_boolean_columns boolFix p5
  let p7 := p6.map (mapCol "plant_id_eia" astypeInt)
  let p8 := p7.map (mapCol "utility_id_eia" astypeInt)
  let p9 := p8.map (mapCol "primary_purpose_naics_id" astypeInt)
  p9

/-- `boolean_columns_to_fix` of the utilities transformer. -/
def utilities_boolean_columns : List String :=
  ["plants_reported_owner",
   "plants_reported_operator",
   "plants_reported_asset_manager",
   "plants_reported_other_relationship"]

/-- `u_df.state.replace({'QB': 'QC', 'Y': 'NY'})` on one cell: the two
known-bad post-upper-casing state codes are corrected by exact match. -/
def stateFix : Value → Value
  | Value.str s => if s = "QB" then Value.str "QC"
      else if s = "Y" then Value.str "NY" else Value.str s
  | v => v

/-- The utilities transformer (`utilities` in `pudl/transform/eia860.py`):
replace missing-data sentinels, upper-case the state column, correct the
two bad state codes, apply the boolean fixes and coerce `utility_id_eia`
(`convert_to_date` omitted as above). -/
def utilities (eia860_dfs : String → List Row) : List Row :=
  let u1 := (eia860_dfs "utility").map (mapRow fix_eia_na_val)
  let u2 := u1.map (mapCol "state" strUpperVal)
  let u3 := u2.map (mapCol "state" stateFix)
  let u4 := fixColumns utilities_boolean_columns boolFix u3
  let u5 := u4.map (mapCol "utility_id_eia" astypeInt)
  u5

/-- Does a row's `report_date` cell hold a (numeric) year at least 2011?
In the source the assertion reads `min(o_df.report_date.dt.year) >= 2011`;
dates are modelled by their year, the only component the source reads. -/
def yearAtLeast2011 (r : Row) : Bool :=
  match getCol "report_date" r with
  | Value.num q => decide (2011 ≤ q)
  | _ => false

/-- The ownership transformer (`ownership` in `pudl/transform/eia860.py`):
replace missing-data sentinels, assert that no report year predates 2011
(`none` models the fatal `AssertionError` halt; the model also halts on an
empty table, where python's `min` of an empty sequence raises), divide the
2011 `fraction_owned` values by 100, coerce the three id columns, and add
the finished table to the accumulator of transformed tables. -/
def ownership (o_df : List Row) (acc : List (String × List Row)) :
    Option (List (String × List Row)) :=
  let o1 := o_df.map (mapRow fix_eia_na_val)
  if o1.isEmpty then none
  else if o1.all yearAtLeast2011 then
    let o2 := o1.map (fun r =>
      if getCol "report_date" r = Value.num 2011 then
        mapCol "fraction_owned" div100 r
      else r)
    let o3 := o2.map (mapCol "owner_utility_id_eia" astypeInt)
    let o4 := o3.map (mapCol "utility_id_eia" astypeInt)
    let o5 := o4.map (mapCol "plant_id_eia" astypeInt)
    some (acc ++ [("ownership_eia860", o5)])
  else none

/-! ### Further lemmas about columns and column loops -/

/-! ### C2: what the boolean-fix loops do to a missing cell -/

/-- A one-row generators input whose `duct_burners` cell is missing. -/
def g_dfs_C2 : String → List Row := fun p =>
  if p = "generator_existing" then
    [[("generator_id", Value.str "G1"), ("plant_id_eia", Value.num 1),
      ("duct_burners", Value.na)]]
  else []

/-- A one-row plants input whose `ash_impoundment` cell is missing. -/
def p_dfs_C2 : String → List Row := fun p =>
  if p = "plant" then [[("ash_impoundment", Value.na)]] else []

/-- A one-row utilities input whose `plants_reported_owner` cell is
missing. -/
def u_dfs_C2 : String → List Row := fun p =>
  if p = "utility" then [[("plants_reported_owner", Value.na)]] else []

/-! ### C4 / C5: the ownership transformer -/

/-- The 2011 ownership record of the C4 witness scenario. -/
def rowC4a : Row :=
  [("report_date", Value.num 2011), ("fraction_owned", Value.num 45)]

/-- The 2012 ownership record of the C4 witness scenario. -/
def rowC4b : Row :=
  [("report_date", Value.num 2012), ("fraction_owned", Value.num (3 / 10))]

/-! ### C9: utilities state corrections -/

/-- The state-normalization rule as the claim states it, on one cell:
upper-case the value, then correct `'QB'` to `'QC'` and `'Y'` to `'NY'`,
and otherwise output the upper-cased value unchanged. -/
def stateRuleSpec : Value → Value
  | Value.str s =>
      if strUpper s = "QB" then Value.str "QC"
      else if strUpper s = "Y" then Value.str "NY"
      else Value.str (strUpper s)
  | v => v

/-- A one-row utilities input whose state cell holds the missing-data
sentinel `'.'`. -/
def u_dfs_C9cex : String → List Row := fun p =>
  if p = "utility" then [[("state", Value.str ".")]] else []

/-- A three-row utilities input with states `'qb'`, `'y'` and `'tx'`. -/
def u_dfs_C9 : String → List Row := fun p =>
  if p = "utility" then
    [[("state", Value.str "qb")], [("state", Value.str "y")],
     [("state", Value.str "tx")]]
  else []

/-! ### C6 / C10: the generators transformer -/

/-- The per-row action of the generators pipeline after the concatenation
and the id dropna: the composition of every remaining column operation of
`generators` on one row. -/
def genRowFix (r : Row) : Row :=
  let r3 := mapRow fix_eia_na_val r
  let r4 := generator_columns_to_fix.foldl (fun s n => mapCol n zeroSpaceToNa s) r3
  let r5 := mapCol "duct_burners" xToN r4
  let r6 := mapCol "heat_bypass_recovery" xToN r5
  let r7 := setCol "syncronized_transmission_grid"
    (xToN (getCol "heat_bypass_recovery" r6)) r6
  let r8 := mapCol "multiple_fuels" uToNa r7
  let r9 := mapCol "switch_oil_gas" uToNa r8
  let r10 := generators_boolean_columns.foldl (fun s n => mapCol n boolFix s) r9
  let r11 := mapCol "plant_id_eia" astypeInt r10
  mapCol "utility_id_eia" astypeInt r11

/-- Two rows agree except possibly at column `c`: same column names in the
same order, and equal cell values wherever the name differs from `c`. -/
def cellsAgreeExcept (c : String) : Row → Row → Bool
  | [], [] => true
  | p :: t1, q :: t2 =>
      p.1 == q.1 && (p.1 == c || p.2 == q.2) && cellsAgreeExcept c t1 t2
  | _, _ => false

/-- Two tables agree except possibly in column `c`: same number of rows,
agreeing pairwise. -/
def tablesAgreeExcept (c : String) : List Row → List Row → Bool
  | [], [] => true
  | r1 :: t1, r2 :: t2 =>
      cellsAgreeExcept c r1 r2 && tablesAgreeExcept c t1 t2
  | _, _ => false

/-- A generators input whose existing-generator row reports
`syncronized_transmission_grid = 'Y'`. -/
def g_dfs1_C10 : String → List Row := fun p =>
  if p = "generator_existing" then
    [[("generator_id", Value.str "G1"), ("plant_id_eia", Value.num 1),
      ("heat_bypass_recovery", Value.str "X"),
      ("syncronized_transmission_grid", Value.str "Y")]]
  else []

/-- The same input except that `syncronized_transmission_grid` is `'U'`. -/
def g_dfs2_C10 : String → List Row := fun p =>
  if p = "generator_existing" then
    [[("generator_id", Value.str "G1"), ("plant_id_eia", Value.num 1),
      ("heat_bypass_recovery", Value.str "X"),
      ("syncronized_transmission_grid", Value.str "U")]]
  else []

/-! ### C7: the EIA-923 page reader (`get_eia923_page`) -/

/-- One pass of the header-cleaning regex
`str.replace('[^0-9a-zA-Z]+', ' ')`: every maximal run of non-alphanumeric
characters becomes a single space.  The flag records whether the previous
character was part of such a run. -/
def collapseNonAl : Bool → List Char → List Char
  | _, [] => []
  | prev, c :: cs =>
      if c.isAlphanum then c :: collapseNonAl false cs
      else if prev then collapseNonAl true cs
      else ' ' :: collapseNonAl true cs

/-- Header cleaning from `get_eia923_page`: collapse non-alphanumeric runs
to single spaces, strip, lower-case, then turn spaces into underscores. -/
def cleanColName (s : String) : String :=
  strCharMap (fun c => if c = ' ' then '_' else c)
    (strLower (strStrip (String.mk (collapseNonAl false s.data))))

/-- `DataFrame.rename(columns=cmap)` on one row: a cell whose column name
is a key of the map is relabelled to the mapped name. -/
def renameCols (cmap : List (String × String)) (r : Row) : Row :=
  r.map (fun c =>
    match cmap.find? (fun p => p.1 == c.1) with
    | some p => (p.2, c.2)
    | none => c)

/-- The per-year body of the `get_eia923_page` loop: clean the header
names, drop the reserved filler columns, add the missing year column on the
stocks page, apply the column-map rename (and the stocks unnamed-column
relabelling), and drop the `plant_id == 99999` state-aggregate rows on
every page except stocks. -/
def processYear (page : String) (cmap : List (String × String)) (yr : Nat)
    (newdata : List Row) : List Row :=
  let d1 := newdata.map (fun r => r.map (fun c => (cleanColName c.1, c.2)))
  let d2 := d1.map (fun r =>
    r.filter (fun c => !(listStartsWith c.1.data "reserved".data)))
  let d3 := if page = "stocks" then
      d2.map (setCol "year" (Value.num (yr : Rat)))
    else d2
  let d4 := d3.map (renameCols cmap)
  let d5 := if page = "stocks" then
      d4.map (renameCols [("unnamed_0", "census_division_and_state")])
    else d4
  if page ≠ "stocks" then
    d5.filter (fun r => !(getCol "plant_id" r == Value.num 99999))
  else d5

/-- `get_eia923_page` from `pudl/eia923.py`, with the parts the core does
not own abstracted as inputs: `data` maps a year to the raw sheet rows that
`pandas.read_excel` produces, and `colmap` is the per-year column map from
the registry (`get_eia923_column_map` reads `pudl.constants`, which is not
under `src`).  `none` models the two leading asserts (years before 2009 or
an unrecognized page; python's `min` of an empty year list also raises). -/
def get_eia923_page (page : String) (knownPages : List String)
    (colmap : Nat → List (String × String)) (data : Nat → List Row)
    (years : List Nat) : Option (List Row) :=
  if years.isEmpty then none
  else if ¬ years.all (fun y => 2009 ≤ y) then none
  else if ¬ knownPages.contains page then none
  else some (years.foldl (fun df yr =>
    df ++ processYear page (colmap yr) yr (data yr)) [])

/-- The raw generation-fuel sheet rows of the C7 witness: one state
aggregate row (`plant_id = 99999`) and one ordinary plant row. -/
def dataC7 : Nat → List Row := fun _ =>
  [[("plant_id", Value.num 99999)], [("plant_id", Value.num 1)]]

/-! ### C1: monthly expansion (`yearly_to_monthly_eia923`) -/

/-- A row together with its dataframe index.  `yearly_to_monthly_eia923`
merges on the row index, so the index is explicit here; a freshly-read
pandas dataframe carries a unique integer index per row. -/
structure IRow where
  idx : Nat
  cells : List (String × Value)
deriving DecidableEq

/-- One iteration of the month loop of `yearly_to_monthly_eia923`, acting
on the state (current `yearly`, accumulated `monthly`): slice out the
columns matching this month's pattern, strip the pattern from their names,
set the numeric `month` column on the slice, append the slice to the
monthly accumulator, and drop the sliced columns from `yearly`. -/
def y2mStep (st : List IRow × List IRow) (pm : Nat × String) :
    List IRow × List IRow :=
  let this_month := st.1.map (fun r =>
    IRow.mk r.idx (setCol "month" (Value.num (pm.1 : Rat))
      ((r.cells.filter (fun c => strContains c.1 pm.2)).map
        (fun c => (strReplace c.1 pm.2 "", c.2)))))
  let yearly := st.1.map (fun r =>
    IRow.mk r.idx (r.cells.filter (fun c => !(strContains c.1 pm.2))))
  (yearly, st.2 ++ this_month)

/-- `yearly.merge(monthly, left_index=True, right_index=True)`: the inner
join on the row index, pairing every left row with every right row of the
same index, left columns first. -/
def mergeIdx (l r : List IRow) : List IRow :=
  (l.map (fun a => (r.filter (fun b => b.idx == a.idx)).map
    (fun b => IRow.mk a.idx (a.cells ++ b.cells)))).flatten

/-- `yearly_to_monthly_eia923(df, md)` from `pudl/eia923.py`: run the month
loop over the month-number-to-pattern dictionary `md`, then merge the
remaining non-month columns back with the stacked monthly slices by row
index. -/
def yearly_to_monthly_eia923 (df : List IRow) (md : List (Nat × String)) :
    List IRow :=
  let st := md.foldl y2mStep (df, [])
  mergeIdx st.1 st.2

/-- The one-row annual table of the C1 witness, with one January column
and one month-independent column. -/
def dfC1 : List IRow :=
  [IRow.mk 0 [("gen_january", Value.str "a"), ("plant", Value.str "A")]]

/-- The month-number-to-pattern dictionary used by the EIA-923 ETL. -/
def md12C1 : List (Nat × String) :=
  [(1, "_january"), (2, "_february"), (3, "_march"), (4, "_april"),
   (5, "_may"), (6, "_june"), (7, "_july"), (8, "_august"),
   (9, "_september"), (10, "_october"), (11, "_november"),
   (12, "_december")]

theorem getCol_mapCol_ne (name c : String) (f : Value → Value) (r : Row)
    (h : c ≠ name) : getCol c (mapCol name f r) = getCol c r := by
  induction r with
  | nil => rfl
  | cons a t ih =>
      simp only [mapCol, getCol]
      by_cases ha : a.1 = name
      · have hac : a.1 ≠ c := by rw [ha]; exact fun hh => h hh.symm
        have hnc : name ≠ c := fun hh => h hh.symm
        simp [ha, hac, hnc, ih]
      · simp only [if_neg ha, getCol]
        by_cases hac : a.1 = c
        · simp [hac]
        · simp [hac, ih]

theorem getCol_overwriteCol_eq (name : String) (v : Value) (r : Row)
    (h : hasCol name r = true) : getCol name (overwriteCol name v r) = v := by
  induction r with
  | nil => simp [hasCol] at h
  | cons a t ih =>
      simp only [overwriteCol, getCol]
      by_cases ha : a.1 = name
      · simp [ha]
      · simp only [if_neg ha, getCol, if_neg ha]
        apply ih
        simp only [hasCol, List.any_cons] at h
        rcases Bool.or_eq_true_iff.mp h with h1 | h2
        · exact absurd (by simpa using h1) ha
        · exact h2

theorem getCol_setCol_eq (name : String) (v : Value) (r : Row) :
    getCol name (setCol name v r) = v := by
  unfold setCol
  by_cases hp : hasCol name r = true
  · rw [if_pos hp]; exact getCol_overwriteCol_eq name v r hp
  · rw [if_neg hp]
    induction r with
    | nil => simp [getCol]
    | cons a t ih =>
        simp only [List.cons_append, getCol]
        have ha : a.1 ≠ name := by
          intro hc
          exact hp (by simp [hasCol, hc])
        rw [if_neg ha]
        apply ih
        intro hc
        exact hp (by simp [hasCol, hc])

theorem getCol_setCol_ne (name c : String) (v : Value) (r : Row)
    (h : c ≠ name) : getCol c (setCol name v r) = getCol c r := by
  unfold setCol
  by_cases hp : hasCol name r = true
  · rw [if_pos hp]
    clear hp
    induction r with
    | nil => rfl
    | cons a t ih =>
        simp only [overwriteCol, getCol]
        by_cases ha : a.1 = name
        · have hac : a.1 ≠ c := by rw [ha]; exact fun hh => h hh.symm
          have hnc : name ≠ c := fun hh => h hh.symm
          simp [ha, hac, hnc, ih]
        · simp only [if_neg ha]
          by_cases hac : a.1 = c
          · simp [getCol, hac]
          · simp [getCol, hac, ih]
  · rw [if_neg hp]
    induction r with
    | nil =>
        simp only [List.nil_append, getCol]
        rw [if_neg (fun hh => h hh.symm)]
    | cons a t ih =>
        simp only [List.cons_append, getCol]
        by_cases hac : a.1 = c
        · simp [hac]
        · rw [if_neg hac, if_neg hac]
          apply ih
          intro hc
          exact hp (by simp [hasCol, hc])

theorem getCol_mapRow (f : Value → Value) (hf : f Value.na = Value.na)
    (c : String) (r : Row) : getCol c (mapRow f r) = f (getCol c r) := by
  induction r with
  | nil => simp [getCol, mapRow, hf]
  | cons a t ih =>
      simp only [mapRow, List.map_cons, getCol]
      by_cases hac : a.1 = c
      · simp [hac]
      · simpa [hac, mapRow] using ih

theorem map_eq_self_of {α : Type} (l : List α) (f : α → α)
    (h : ∀ a ∈ l, f a = a) : l.map f = l := by
  induction l with
  | nil => rfl
  | cons a t ih =>
      simp only [List.map_cons, h a (by simp)]
      rw [ih (fun b hb => h b (by simp [hb]))]

theorem foldl_synonym_id (sm : List (String × List String))
    (f : List Value) (h : ∀ v ∈ f, ∀ p ∈ sm, synonymStep p v = v) :
    sm.foldl (fun g p => g.map (synonymStep p)) f = f := by
  induction sm with
  | nil => rfl
  | cons p t ih =>
      simp only [List.foldl_cons]
      rw [map_eq_self_of f _ (fun v hv => h v hv p (by simp))]
      exact ih (fun v hv q hq => h v hv q (by simp [hq]))

/-- C3: the claim says `cleanstringsEIA923` collapses every internal run of
consecutive whitespace characters to a single space.  The source instead
runs `field.replace('[\s+]', ' ', regex=True)`: the pattern is a character
*class* (whitespace or a literal plus sign), so every single such character
is replaced by one space and runs are preserved — the inline comment
"remove duplicate internal whitespace" contradicts the behavior.  On the
column `["  a  b ", "a+b"]` with an empty synonym map, the code yields
`["A  B", "A B"]` (the internal double space survives; the plus sign is
turned into a space), not `["A B", "A+B"]` as the claim requires. -/
theorem C3_whitespace_runs_preserved :
    cleanstringsEIA923 [Value.str "  a  b ", Value.str "a+b"] [] none
        = [Value.str "A  B", Value.str "A B"] ∧
    cleanstringsEIA923 [Value.str "  a  b ", Value.str "a+b"] [] none
        ≠ [Value.str "A B", Value.str "A+B"] := by
  decide

/-- C8 counterexample: the column `["A"]` is already normalized with
respect to `stringmapC8` — its only value is a canonical key, upper-cased,
trimmed, with no internal whitespace at all — yet applying
`cleanstringsEIA923` again maps it to `["B"]`, because the key `"A"`
is itself listed as a synonym of the key `"B"`. -/
theorem C8_counterexample :
    ("A" ∈ stringmapC8.map Prod.fst ∧ strUpper "A" = "A" ∧
      strStrip "A" = "A" ∧ strCharMap wsPlusChar "A" = "A") ∧
    cleanstringsEIA923 [Value.str "A"] stringmapC8 none ≠ [Value.str "A"] := by
  decide

/-- C8 (amended): re-applying `cleanstringsEIA923` to an already-normalized
column is a no-op, provided additionally that the values contain no plus
signs or non-space whitespace (so the `'[\s+]'` replacement fixes them) and
that no canonical key itself occurs in any synonym list of the map.  Each
value must be a canonical key, upper-cased and trimmed. -/
theorem C8_idempotent_on_normalized (field : List Value)
    (stringmap : List (String × List String)) (unmapped : Option Value)
    (h : ∀ v ∈ field, ∃ k ∈ stringmap.map Prod.fst, v = Value.str k ∧
      strUpper k = k ∧ strStrip k = k ∧ strCharMap wsPlusChar k = k ∧
      ∀ p ∈ stringmap, p.2.contains k = false) :
    cleanstringsEIA923 field stringmap unmapped = field := by
  simp only [cleanstringsEIA923]
  have h1 : field.map strUpperVal = field := by
    apply map_eq_self_of
    intro v hv
    obtain ⟨k, _, hvk, hu, _, _, _⟩ := h v hv
    rw [hvk]; simp [strUpperVal, hu]
  rw [h1]
  have h2 : field.map strStripVal = field := by
    apply map_eq_self_of
    intro v hv
    obtain ⟨k, _, hvk, _, hs, _, _⟩ := h v hv
    rw [hvk]; simp [strStripVal, hs]
  rw [h2]
  have h3 : field.map wsPlusVal = field := by
    apply map_eq_self_of
    intro v hv
    obtain ⟨k, _, hvk, _, _, hw, _⟩ := h v hv
    rw [hvk]; simp [wsPlusVal, hw]
  rw [h3]
  have h4 : stringmap.foldl (fun g p => g.map (synonymStep p)) field
      = field := by
    apply foldl_synonym_id
    intro v hv p hp
    obtain ⟨k, _, hvk, _, _, _, hn⟩ := h v hv
    rw [hvk]
    simp only [synonymStep, hn p hp]
    simp
  rw [h4]
  cases unmapped with
  | none => rfl
  | some u =>
      apply map_eq_self_of
      intro v hv
      obtain ⟨k, hk, hvk, _, _, _, _⟩ := h v hv
      have : stringmap.any (fun p => v == Value.str p.1) = true := by
        rw [List.any_eq_true]
        obtain ⟨p, hp, hpk⟩ := List.mem_map.mp hk
        exact ⟨p, hp, by simp [hvk, hpk]⟩
      simp [this]

/-- C8 witness: a concrete already-normalized column, synonym map and
unmapped policy on which the amended idempotence theorem applies. -/
theorem C8_witness :
    cleanstringsEIA923 [Value.str "AA"] [("AA", ["A1"])] (some Value.na)
      = [Value.str "AA"] :=
  C8_idempotent_on_normalized _ _ _ (by decide)

theorem getCol_mapCol_eq (c : String) (f : Value → Value)
    (hf : f Value.na = Value.na) (r : Row) :
    getCol c (mapCol c f r) = f (getCol c r) := by
  induction r with
  | nil => simp [getCol, mapCol, hf]
  | cons a t ih =>
      simp only [mapCol, getCol]
      by_cases ha : a.1 = c
      · simp [ha]
      · simp [ha, ih]

theorem hasCol_mapCol (c n : String) (f : Value → Value) (r : Row) :
    hasCol c (mapCol n f r) = hasCol c r := by
  induction r with
  | nil => rfl
  | cons a t ih =>
      simp only [mapCol, hasCol]
      by_cases ha : a.1 = n
      · simp [ha, ih]
      · simp [ha, ih]

theorem getCol_mapCol_eq_hasCol (c : String) (f : Value → Value) (r : Row)
    (hc : hasCol c r = true) : getCol c (mapCol c f r) = f (getCol c r) := by
  induction r with
  | nil => simp [hasCol] at hc
  | cons a t ih =>
      simp only [mapCol, getCol]
      by_cases ha : a.1 = c
      · simp [ha]
      · simp only [if_neg ha, getCol, if_neg ha]
        apply ih
        simp only [hasCol] at hc
        rcases Bool.or_eq_true_iff.mp hc with h1 | h2
        · exact absurd (by simpa using h1) ha
        · exact h2

theorem hasCol_mapRow (c : String) (f : Value → Value) (r : Row) :
    hasCol c (mapRow f r) = hasCol c r := by
  induction r with
  | nil => rfl
  | cons a t ih =>
      simp only [mapRow, List.map_cons, hasCol]
      simpa [mapRow] using congrArg (fun b => (decide (a.1 = c) || b)) ih

theorem hasCol_setCol_self (c : String) (v : Value) (r : Row) :
    hasCol c (setCol c v r) = true := by
  unfold setCol
  by_cases hp : hasCol c r = true
  · rw [if_pos hp]
    induction r with
    | nil => simp [hasCol] at hp
    | cons a t ih =>
        simp only [overwriteCol, hasCol]
        by_cases ha : a.1 = c
        · simp [ha]
        · simp only [if_neg ha]
          simp only [hasCol] at hp ⊢
          rcases Bool.or_eq_true_iff.mp hp with h1 | h2
          · exact absurd (by simpa using h1) ha
          · simp [ih h2]
  · rw [if_neg hp]
    induction r with
    | nil => simp [hasCol]
    | cons a t ih =>
        simp only [List.cons_append, hasCol, List.append_eq]
        rw [ih]
        · simp
        · intro hc
          exact hp (by simp [hasCol, hc])

theorem getCol_rowFold_not_mem (c : String) (f : Value → Value)
    (cols : List String) (h : c ∉ cols) (r : Row) :
    getCol c (cols.foldl (fun s n => mapCol n f s) r) = getCol c r := by
  induction cols generalizing r with
  | nil => rfl
  | cons n t ih =>
      simp only [List.foldl_cons]
      rw [ih (fun hc => h (by simp [hc]))]
      exact getCol_mapCol_ne n c f r (fun hc => h (by simp [hc]))

theorem hasCol_rowFold (c : String) (f : Value → Value)
    (cols : List String) (r : Row) :
    hasCol c (cols.foldl (fun s n => mapCol n f s) r) = hasCol c r := by
  induction cols generalizing r with
  | nil => rfl
  | cons n t ih =>
      simp only [List.foldl_cons]
      rw [ih, hasCol_mapCol]

theorem getCol_rowFold_once (c : String) (f : Value → Value)
    (l1 l2 : List String) (h1 : c ∉ l1) (h2 : c ∉ l2) (r : Row)
    (hc : hasCol c r = true) :
    getCol c ((l1 ++ c :: l2).foldl (fun s n => mapCol n f s) r)
      = f (getCol c r) := by
  rw [List.foldl_append, List.foldl_cons]
  rw [getCol_rowFold_not_mem c f l2 h2]
  rw [getCol_mapCol_eq_hasCol c f _ (by rw [hasCol_rowFold]; exact hc)]
  rw [getCol_rowFold_not_mem c f l1 h1 r]

theorem fixColumns_eq_map (cols : List String) (f : Value → Value)
    (df : List Row) :
    fixColumns cols f df
      = df.map (fun r => cols.foldl (fun s n => mapCol n f s) r) := by
  induction cols generalizing df with
  | nil => simp [fixColumns]
  | cons n t ih =>
      simp only [fixColumns, List.foldl_cons] at *
      rw [ih (df.map (mapCol n f)), List.map_map]
      rfl

/-- C2: the claim says a missing cell in a boolean-fix column becomes the
boolean value false.  The source's loops run `fillna('False')` — filling
with the *string* `'False'` — before replacing only `"Y"` and `"N"` by the
booleans, so a missing cell comes out as the string `'False'`: a leftover
unmapped (and, in python, truthy) value, not the boolean false.  This
contradicts the loops' stated purpose of producing uniform boolean
True/False values; evaluated here on one-row inputs for each of the
generators, plants and utilities transformers. -/
theorem C2_missing_becomes_string_False :
    (generators g_dfs_C2).map (getCol "duct_burners") = [Value.str "False"] ∧
    (plants p_dfs_C2).map (getCol "ash_impoundment") = [Value.str "False"] ∧
    (utilities u_dfs_C2).map (getCol "plants_reported_owner")
        = [Value.str "False"] ∧
    boolFix Value.na = Value.str "False" ∧
    Value.str "False" ≠ Value.bool false := by
  decide

/-- C4: in the ownership transformer, a 2011 record's `fraction_owned` is
divided by 100 and any other (2012-or-later) record's `fraction_owned` is
unchanged.  Stated for inputs with numeric report years all at least 2011
(so the transformer's assertion passes) and numeric ownership fractions. -/
theorem C4_ownership_2011_fraction (o_df : List Row)
    (acc : List (String × List Row))
    (hne : o_df ≠ [])
    (hyear : ∀ r ∈ o_df, ∃ q : Rat,
      getCol "report_date" r = Value.num q ∧ 2011 ≤ q)
    (hfrac : ∀ r ∈ o_df, ∃ q : Rat, getCol "fraction_owned" r = Value.num q) :
    ∃ out : List Row,
      ownership o_df acc = some (acc ++ [("ownership_eia860", out)]) ∧
      out.map (getCol "fraction_owned") = o_df.map (fun r =>
        if getCol "report_date" r = Value.num 2011 then
          div100 (getCol "fraction_owned" r)
        else getCol "fraction_owned" r) := by
  have hfixna : fix_eia_na_val Value.na = Value.na := rfl
  simp only [ownership]
  have hemp : ((o_df.map (mapRow fix_eia_na_val)).isEmpty) = false := by
    cases o_df with
    | nil => exact absurd rfl hne
    | cons a t => rfl
  rw [hemp]
  have hall : (o_df.map (mapRow fix_eia_na_val)).all yearAtLeast2011 = true := by
    rw [List.all_eq_true]
    intro x hx
    obtain ⟨r, hr, hxr⟩ := List.mem_map.mp hx
    obtain ⟨q, hq, hq11⟩ := hyear r hr
    have : getCol "report_date" x = Value.num q := by
      rw [← hxr, getCol_mapRow fix_eia_na_val hfixna, hq]
      rfl
    simp [yearAtLeast2011, this, hq11]
  simp only [hall, Bool.false_eq_true, if_false, if_true]
  refine ⟨_, rfl, ?_⟩
  simp only [List.map_map]
  apply List.map_congr_left
  intro r hr
  obtain ⟨qy, hqy, _⟩ := hyear r hr
  obtain ⟨qf, hqf⟩ := hfrac r hr
  simp only [Function.comp]
  have hrep : getCol "report_date" (mapRow fix_eia_na_val r)
      = getCol "report_date" r := by
    rw [getCol_mapRow fix_eia_na_val hfixna, hqy]; rfl
  have hfra : getCol "fraction_owned" (mapRow fix_eia_na_val r)
      = getCol "fraction_owned" r := by
    rw [getCol_mapRow fix_eia_na_val hfixna, hqf]; rfl
  have hne1 : ("fraction_owned" : String) ≠ "owner_utility_id_eia" := by decide
  have hne2 : ("fraction_owned" : String) ≠ "utility_id_eia" := by decide
  have hne3 : ("fraction_owned" : String) ≠ "plant_id_eia" := by decide
  by_cases hcond : getCol "report_date" r = Value.num 2011
  · rw [if_pos (by rw [hrep]; exact hcond), if_pos hcond]
    rw [getCol_mapCol_ne _ _ _ _ hne3, getCol_mapCol_ne _ _ _ _ hne2,
      getCol_mapCol_ne _ _ _ _ hne1]
    rw [getCol_mapCol_eq "fraction_owned" div100 rfl, hfra]
  · rw [if_neg (by rw [hrep]; exact hcond), if_neg hcond]
    rw [getCol_mapCol_ne _ _ _ _ hne3, getCol_mapCol_ne _ _ _ _ hne2,
      getCol_mapCol_ne _ _ _ _ hne1]
    exact hfra

/-- C4 witness: on a 2011 record with `fraction_owned = 45` and a 2012
record with `fraction_owned = 0.30`, the transformer divides the first by
100 and leaves the second unchanged. -/
theorem C4_witness :
    ∃ out : List Row,
      ownership [rowC4a, rowC4b] []
          = some ([] ++ [("ownership_eia860", out)]) ∧
      out.map (getCol "fraction_owned") = [rowC4a, rowC4b].map (fun r =>
        if getCol "report_date" r = Value.num 2011 then
          div100 (getCol "fraction_owned" r)
        else getCol "fraction_owned" r) :=
  C4_ownership_2011_fraction [rowC4a, rowC4b] [] (by decide)
    (by
      intro r hr
      rcases List.mem_pair.mp hr with h | h
      · exact ⟨2011, by rw [h]; rfl, by decide⟩
      · exact ⟨2012, by rw [h]; rfl, by decide⟩)
    (by
      intro r hr
      rcases List.mem_pair.mp hr with h | h
      · exact ⟨45, by rw [h]; rfl⟩
      · exact ⟨3 / 10, by rw [h]; rfl⟩)

/-- C5: for a non-empty ownership input with well-formed (numeric) report
years, the transformer halts with the fatal assertion — returning `none`
and adding no table to the accumulator — exactly when some record's report
year predates 2011. -/
theorem C5_ownership_assert_iff (o_df : List Row)
    (acc : List (String × List Row))
    (hne : o_df ≠ [])
    (hyear : ∀ r ∈ o_df, ∃ q : Rat, getCol "report_date" r = Value.num q) :
    (ownership o_df acc = none
      ↔ ∃ r ∈ o_df, ∃ q : Rat,
          getCol "report_date" r = Value.num q ∧ q < 2011) := by
  have hfixna : fix_eia_na_val Value.na = Value.na := rfl
  simp only [ownership]
  have hemp : ((o_df.map (mapRow fix_eia_na_val)).isEmpty) = false := by
    cases o_df with
    | nil => exact absurd rfl hne
    | cons a t => rfl
  rw [hemp]
  simp only [Bool.false_eq_true, if_false]
  constructor
  · intro hnone
    by_cases hall : (o_df.map (mapRow fix_eia_na_val)).all yearAtLeast2011 = true
    · rw [if_pos hall] at hnone
      exact absurd hnone (by simp)
    · rw [List.all_eq_true] at hall
      push_neg at hall
      obtain ⟨x, hx, hxy⟩ := hall
      obtain ⟨r, hr, hxr⟩ := List.mem_map.mp hx
      obtain ⟨q, hq⟩ := hyear r hr
      refine ⟨r, hr, q, hq, ?_⟩
      have hgx : getCol "report_date" x = Value.num q := by
        rw [← hxr, getCol_mapRow fix_eia_na_val hfixna, hq]; rfl
      by_contra hlt
      push_neg at hlt
      exact hxy (by simp [yearAtLeast2011, hgx, hlt])
  · rintro ⟨r, hr, q, hq, hlt⟩
    have hall : ¬ ((o_df.map (mapRow fix_eia_na_val)).all yearAtLeast2011
        = true) := by
      rw [List.all_eq_true]
      intro hcon
      have hx : mapRow fix_eia_na_val r ∈ o_df.map (mapRow fix_eia_na_val) :=
        List.mem_map_of_mem _ hr
      have hgx : getCol "report_date" (mapRow fix_eia_na_val r)
          = Value.num q := by
        rw [getCol_mapRow fix_eia_na_val hfixna, hq]; rfl
      have := hcon _ hx
      simp only [yearAtLeast2011, hgx, decide_eq_true_eq] at this
      exact absurd this (by exact not_le.mpr hlt)
    rw [if_neg hall]

/-- C5 witness: a single 2010 ownership record makes the transformer halt
with the assertion, adding nothing to the accumulator. -/
theorem C5_witness : ownership [[("report_date", Value.num 2010)]] [] = none :=
  (C5_ownership_assert_iff [[("report_date", Value.num 2010)]] [] (by decide)
      (by intro r hr; rw [List.mem_singleton.mp hr]; exact ⟨2010, rfl⟩)).mpr
    ⟨[("report_date", Value.num 2010)], by simp, 2010, rfl, by decide⟩

/-- C9 counterexample: the claim says every state value other than
`'QB'`/`'Y'` is output as its upper-cased form unchanged, but the
transformer first replaces missing-data sentinels, so an input state `'.'`
comes out as a missing value, not as the upper-cased string `'.'`. -/
theorem C9_counterexample :
    (utilities u_dfs_C9cex).map (getCol "state") = [Value.na] ∧
    Value.na ≠ stateRuleSpec (Value.str ".") := by
  decide

/-- C9 (amended): for every utility record whose state cell is a string
that is not a missing-data sentinel (not `'.'`, not empty or pure
whitespace), the output state is the upper-cased input with `'QB'`
corrected to `'QC'` and `'Y'` corrected to `'NY'`, and every other such
value upper-cased unchanged; sentinel state cells become missing instead. -/
theorem C9_state_corrections (eia860_dfs : String → List Row)
    (h : ∀ r ∈ eia860_dfs "utility", ∃ s : String,
      getCol "state" r = Value.str s ∧ s ≠ "." ∧ strStrip s ≠ "") :
    (utilities eia860_dfs).map (getCol "state")
      = (eia860_dfs "utility").map (fun r => stateRuleSpec (getCol "state" r))
    := by
  simp only [utilities, fixColumns_eq_map, List.map_map]
  apply List.map_congr_left
  intro r hr
  obtain ⟨s, hs, hdot, hblank⟩ := h r hr
  simp only [Function.comp]
  rw [getCol_mapCol_ne "utility_id_eia" "state" astypeInt _ (by decide)]
  rw [getCol_rowFold_not_mem "state" boolFix utilities_boolean_columns
    (by decide)]
  rw [getCol_mapCol_eq "state" stateFix rfl]
  rw [getCol_mapCol_eq "state" strUpperVal rfl]
  rw [getCol_mapRow fix_eia_na_val rfl, hs]
  have hfix : fix_eia_na_val (Value.str s) = Value.str s := by
    simp [fix_eia_na_val, hdot, hblank]
  rw [hfix]
  rfl

/-- C9 witness: states `'qb'`, `'y'` and `'tx'` come out as `'QC'`, `'NY'`
and `'TX'`. -/
theorem C9_witness :
    (utilities u_dfs_C9).map (getCol "state")
      = [Value.str "QC", Value.str "NY", Value.str "TX"] :=
  (C9_state_corrections u_dfs_C9 (by
    intro r hr
    have hr2 : r = [("state", Value.str "qb")]
        ∨ r = [("state", Value.str "y")]
        ∨ r = [("state", Value.str "tx")] := by
      simpa [u_dfs_C9] using hr
    rcases hr2 with h | h | h
    · exact ⟨"qb", by rw [h]; rfl, by decide, by decide⟩
    · exact ⟨"y", by rw [h]; rfl, by decide, by decide⟩
    · exact ⟨"tx", by rw [h]; rfl, by decide, by decide⟩
    )).trans (by decide)

theorem generators_decomp (eia860_dfs : String → List Row) :
    generators eia860_dfs =
      (((eia860_dfs "generator_existing").map
          (setCol "operational_status_code" (Value.str "existing"))
        ++ (eia860_dfs "generator_proposed").map
          (setCol "operational_status_code" (Value.str "proposed"))
        ++ (eia860_dfs "generator_retired").map
          (setCol "operational_status_code" (Value.str "retired"))).filter
        hasIds).map genRowFix := by
  simp only [generators, fixColumns_eq_map, List.map_map]
  apply List.map_congr_left
  intro r _
  simp only [genRowFix, Function.comp]

/-- The generators pipeline preserves the status tag of a row: none of the
per-row operations after the concatenation rewrites the
`operational_status_code` cell. -/
theorem getCol_status_genRowFix (a : Row) (s : String)
    (hs : getCol "operational_status_code" a = Value.str s)
    (hfix : fix_eia_na_val (Value.str s) = Value.str s) :
    getCol "operational_status_code" (genRowFix a) = Value.str s := by
  simp only [genRowFix]
  rw [getCol_mapCol_ne _ _ _ _ (by decide)]
  rw [getCol_mapCol_ne _ _ _ _ (by decide)]
  rw [getCol_rowFold_not_mem "operational_status_code" boolFix
    generators_boolean_columns (by decide)]
  rw [getCol_mapCol_ne _ _ _ _ (by decide)]
  rw [getCol_mapCol_ne _ _ _ _ (by decide)]
  rw [getCol_setCol_ne _ _ _ _ (by decide)]
  rw [getCol_mapCol_ne _ _ _ _ (by decide)]
  rw [getCol_mapCol_ne _ _ _ _ (by decide)]
  rw [getCol_rowFold_not_mem "operational_status_code" zeroSpaceToNa
    generator_columns_to_fix (by decide)]
  rw [getCol_mapRow fix_eia_na_val rfl, hs, hfix]

/-- Tagging a row with its operational status does not change its id
cells, so it does not change whether the id dropna keeps the row. -/
theorem hasIds_setCol_status (v : Value) (r : Row) :
    hasIds (setCol "operational_status_code" v r) = hasIds r := by
  simp only [hasIds]
  rw [getCol_setCol_ne _ _ _ _ (by decide), getCol_setCol_ne _ _ _ _ (by decide)]

theorem countP_length_split {α : Type} (p : α → Bool) (l : List α) :
    l.length = l.countP p + l.countP (fun a => !(p a)) := by
  induction l with
  | nil => rfl
  | cons a t ih =>
      by_cases h : p a = true
      · simp only [List.countP_cons, h, List.length_cons, ih]
        simp
        omega
      · simp only [List.countP_cons, List.length_cons, ih,
          Bool.not_eq_true] at *
        simp [h]
        omega

/-- C6: the generators transformer unions the proposed, existing and
retired sub-tables into one table made of three segments whose rows carry
the status tag of the sub-table they came from, and the output row count
is the sum of the three input row counts minus the number of rows dropped
for a missing `generator_id` or `plant_id_eia`. -/
theorem C6_generators_union (eia860_dfs : String → List Row) :
    ∃ E P R : List Row,
      generators eia860_dfs = E ++ P ++ R ∧
      (∀ r ∈ E, getCol "operational_status_code" r = Value.str "existing") ∧
      (∀ r ∈ P, getCol "operational_status_code" r = Value.str "proposed") ∧
      (∀ r ∈ R, getCol "operational_status_code" r = Value.str "retired") ∧
      (generators eia860_dfs).length =
        (eia860_dfs "generator_proposed").length
          + (eia860_dfs "generator_existing").length
          + (eia860_dfs "generator_retired").length
          - ((eia860_dfs "generator_existing" ++ eia860_dfs "generator_proposed"
              ++ eia860_dfs "generator_retired").countP
              (fun r => !(hasIds r))) := by
  have hdec := generators_decomp eia860_dfs
  set ge := eia860_dfs "generator_existing" with hge
  set gp := eia860_dfs "generator_proposed" with hgp
  set gr := eia860_dfs "generator_retired" with hgr
  have hfcongr : ∀ (d : List Row) (s : String),
      d.filter (hasIds ∘ setCol "operational_status_code" (Value.str s))
        = d.filter hasIds := by
    intro d s
    apply List.filter_congr
    intro r _
    simp only [Function.comp, hasIds_setCol_status]
  have hseg : ∀ (d : List Row) (s : String),
      ((d.map (setCol "operational_status_code" (Value.str s))).filter
        hasIds).map genRowFix
      = ((d.filter hasIds).map
          (setCol "operational_status_code" (Value.str s))).map genRowFix := by
    intro d s
    rw [List.filter_map, hfcongr]
  have hstat : ∀ (d : List Row) (s : String),
      fix_eia_na_val (Value.str s) = Value.str s →
      ∀ r ∈ ((d.filter hasIds).map
          (setCol "operational_status_code" (Value.str s))).map genRowFix,
        getCol "operational_status_code" r = Value.str s := by
    intro d s hfix r hr
    obtain ⟨a, ha, har⟩ := List.mem_map.mp hr
    obtain ⟨b, _, hba⟩ := List.mem_map.mp ha
    rw [← har]
    apply getCol_status_genRowFix _ s _ hfix
    rw [← hba]
    exact getCol_setCol_eq _ _ _
  refine ⟨((ge.filter hasIds).map
      (setCol "operational_status_code" (Value.str "existing"))).map genRowFix,
    ((gp.filter hasIds).map
      (setCol "operational_status_code" (Value.str "proposed"))).map genRowFix,
    ((gr.filter hasIds).map
      (setCol "operational_status_code" (Value.str "retired"))).map genRowFix,
    ?_, hstat ge "existing" (by decide), hstat gp "proposed" (by decide),
    hstat gr "retired" (by decide), ?_⟩
  · rw [hdec, List.filter_append, List.filter_append, List.map_append,
      List.map_append, hseg, hseg, hseg]
  · rw [hdec, List.length_map, ← List.countP_eq_length_filter,
      List.countP_append, List.countP_append]
    have hcnt : ∀ (d : List Row) (s : String),
        (d.map (setCol "operational_status_code" (Value.str s))).countP hasIds
          = d.countP hasIds := by
      intro d s
      rw [List.countP_map]
      apply List.countP_congr
      intro r _
      simp only [Function.comp, hasIds_setCol_status]
    rw [hcnt ge, hcnt gp, hcnt gr, List.countP_append, List.countP_append]
    have he := countP_length_split hasIds ge
    have hp2 := countP_length_split hasIds gp
    have hr2 := countP_length_split hasIds gr
    omega

theorem cae_elim {c : String} {p q : String × Value} {t1 t2 : Row}
    (h : cellsAgreeExcept c (p :: t1) (q :: t2) = true) :
    p.1 = q.1 ∧ (p.1 = c ∨ p.2 = q.2) ∧ cellsAgreeExcept c t1 t2 = true := by
  simp only [cellsAgreeExcept, Bool.and_eq_true, Bool.or_eq_true,
    beq_iff_eq] at h
  tauto

theorem cae_getCol_ne (c n : String) (hn : n ≠ c) (r1 r2 : Row)
    (h : cellsAgreeExcept c r1 r2 = true) : getCol n r1 = getCol n r2 := by
  induction r1 generalizing r2 with
  | nil =>
      cases r2 with
      | nil => rfl
      | cons q t2 => simp [cellsAgreeExcept] at h
  | cons p t1 ih =>
      cases r2 with
      | nil => simp [cellsAgreeExcept] at h
      | cons q t2 =>
          obtain ⟨h1, h2, h3⟩ := cae_elim h
          simp only [getCol]
          by_cases hp : p.1 = n
          · rw [if_pos hp, if_pos (h1 ▸ hp)]
            rcases h2 with h2 | h2
            · exact absurd (h2 ▸ hp).symm hn
            · exact h2
          · rw [if_neg hp, if_neg (h1 ▸ hp)]
            exact ih t2 h3

theorem cae_hasCol (c n : String) (r1 r2 : Row)
    (h : cellsAgreeExcept c r1 r2 = true) : hasCol n r1 = hasCol n r2 := by
  induction r1 generalizing r2 with
  | nil =>
      cases r2 with
      | nil => rfl
      | cons q t2 => simp [cellsAgreeExcept] at h
  | cons p t1 ih =>
      cases r2 with
      | nil => simp [cellsAgreeExcept] at h
      | cons q t2 =>
          obtain ⟨h1, _, h3⟩ := cae_elim h
          simp only [hasCol, h1, ih t2 h3]

theorem cae_mapCol (c n : String) (f : Value → Value) (r1 r2 : Row)
    (h : cellsAgreeExcept c r1 r2 = true) :
    cellsAgreeExcept c (mapCol n f r1) (mapCol n f r2) = true := by
  induction r1 generalizing r2 with
  | nil =>
      cases r2 with
      | nil => rfl
      | cons q t2 => simp [cellsAgreeExcept] at h
  | cons p t1 ih =>
      cases r2 with
      | nil => simp [cellsAgreeExcept] at h
      | cons q t2 =>
          obtain ⟨h1, h2, h3⟩ := cae_elim h
          simp only [mapCol]
          by_cases hp : p.1 = n
          · rw [if_pos hp, if_pos (h1 ▸ hp)]
            simp only [cellsAgreeExcept, Bool.and_eq_true, Bool.or_eq_true,
              beq_iff_eq]
            refine ⟨⟨h1, ?_⟩, ih t2 h3⟩
            rcases h2 with h2 | h2
            · exact Or.inl h2
            · exact Or.inr (by rw [h2])
          · rw [if_neg hp, if_neg (h1 ▸ hp)]
            simp only [cellsAgreeExcept, Bool.and_eq_true, Bool.or_eq_true,
              beq_iff_eq]
            refine ⟨⟨h1, ?_⟩, ih t2 h3⟩
            tauto

theorem cae_mapRow (c : String) (f : Value → Value) (r1 r2 : Row)
    (h : cellsAgreeExcept c r1 r2 = true) :
    cellsAgreeExcept c (mapRow f r1) (mapRow f r2) = true := by
  induction r1 generalizing r2 with
  | nil =>
      cases r2 with
      | nil => rfl
      | cons q t2 => simp [cellsAgreeExcept] at h
  | cons p t1 ih =>
      cases r2 with
      | nil => simp [cellsAgreeExcept] at h
      | cons q t2 =>
          obtain ⟨h1, h2, h3⟩ := cae_elim h
          simp only [mapRow, List.map_cons, cellsAgreeExcept,
            Bool.and_eq_true, Bool.or_eq_true, beq_iff_eq]
          refine ⟨⟨h1, ?_⟩, by simpa [mapRow] using ih t2 h3⟩
          rcases h2 with h2 | h2
          · exact Or.inl h2
          · exact Or.inr (by rw [h2])

theorem cae_rowFold (c : String) (f : Value → Value) (cols : List String)
    (r1 r2 : Row) (h : cellsAgreeExcept c r1 r2 = true) :
    cellsAgreeExcept c (cols.foldl (fun s n => mapCol n f s) r1)
      (cols.foldl (fun s n => mapCol n f s) r2) = true := by
  induction cols generalizing r1 r2 with
  | nil => exact h
  | cons n t ih =>
      simp only [List.foldl_cons]
      exact ih _ _ (cae_mapCol c n f r1 r2 h)

theorem cae_eq_of_no_col (c : String) (r1 r2 : Row)
    (h : cellsAgreeExcept c r1 r2 = true) (hn : hasCol c r1 = false) :
    r1 = r2 := by
  induction r1 generalizing r2 with
  | nil =>
      cases r2 with
      | nil => rfl
      | cons q t2 => simp [cellsAgreeExcept] at h
  | cons p t1 ih =>
      cases r2 with
      | nil => simp [cellsAgreeExcept] at h
      | cons q t2 =>
          obtain ⟨h1, h2, h3⟩ := cae_elim h
          simp only [hasCol, Bool.or_eq_false_iff, decide_eq_false_iff_not]
            at hn
          have hv : p.2 = q.2 := by
            rcases h2 with h2 | h2
            · exact absurd h2 hn.1
            · exact h2
          have hp : p = q := Prod.ext h1 hv
          rw [hp, ih t2 h3 hn.2]

theorem overwriteCol_eq_of_cae (c : String) (v : Value) (r1 r2 : Row)
    (h : cellsAgreeExcept c r1 r2 = true) :
    overwriteCol c v r1 = overwriteCol c v r2 := by
  induction r1 generalizing r2 with
  | nil =>
      cases r2 with
      | nil => rfl
      | cons q t2 => simp [cellsAgreeExcept] at h
  | cons p t1 ih =>
      cases r2 with
      | nil => simp [cellsAgreeExcept] at h
      | cons q t2 =>
          obtain ⟨h1, h2, h3⟩ := cae_elim h
          simp only [overwriteCol]
          rw [ih t2 h3]
          by_cases hp : p.1 = c
          · rw [if_pos hp, if_pos (h1 ▸ hp), h1]
          · rw [if_neg hp, if_neg (h1 ▸ hp)]
            have hv : p.2 = q.2 := by
              rcases h2 with h2 | h2
              · exact absurd h2 hp
              · exact h2
            rw [Prod.ext h1 hv]

theorem setCol_eq_of_cae (c : String) (v : Value) (r1 r2 : Row)
    (h : cellsAgreeExcept c r1 r2 = true) :
    setCol c v r1 = setCol c v r2 := by
  unfold setCol
  rw [← cae_hasCol c c r1 r2 h]
  by_cases hp : hasCol c r1 = true
  · rw [if_pos hp, if_pos hp]
    exact overwriteCol_eq_of_cae c v r1 r2 h
  · rw [if_neg hp, if_neg hp]
    rw [cae_eq_of_no_col c r1 r2 h (by simpa using hp)]

theorem cae_setCol (c n : String) (v : Value) (r1 r2 : Row)
    (h : cellsAgreeExcept c r1 r2 = true) :
    cellsAgreeExcept c (setCol n v r1) (setCol n v r2) = true := by
  unfold setCol
  rw [← cae_hasCol c n r1 r2 h]
  by_cases hp : hasCol n r1 = true
  · rw [if_pos hp, if_pos hp]
    clear hp
    induction r1 generalizing r2 with
    | nil =>
        cases r2 with
        | nil => rfl
        | cons q t2 => simp [cellsAgreeExcept] at h
    | cons p t1 ih =>
        cases r2 with
        | nil => simp [cellsAgreeExcept] at h
        | cons q t2 =>
            obtain ⟨h1, h2, h3⟩ := cae_elim h
            simp only [overwriteCol]
            by_cases hp1 : p.1 = n
            · rw [if_pos hp1, if_pos (h1 ▸ hp1)]
              simp only [cellsAgreeExcept, Bool.and_eq_true, Bool.or_eq_true,
                beq_iff_eq]
              exact ⟨⟨h1, Or.inr trivial⟩, ih t2 h3⟩
            · rw [if_neg hp1, if_neg (h1 ▸ hp1)]
              simp only [cellsAgreeExcept, Bool.and_eq_true, Bool.or_eq_true,
                beq_iff_eq]
              exact ⟨⟨h1, h2⟩, ih t2 h3⟩
  · rw [if_neg hp, if_neg hp]
    clear hp
    induction r1 generalizing r2 with
    | nil =>
        cases r2 with
        | nil =>
            simp [cellsAgreeExcept]
        | cons q t2 => simp [cellsAgreeExcept] at h
    | cons p t1 ih =>
        cases r2 with
        | nil => simp [cellsAgreeExcept] at h
        | cons q t2 =>
            obtain ⟨h1, h2, h3⟩ := cae_elim h
            simp only [List.cons_append, cellsAgreeExcept, Bool.and_eq_true,
              Bool.or_eq_true, beq_iff_eq]
            exact ⟨⟨h1, h2⟩, ih t2 h3⟩

theorem tae_elim {c : String} {r1 r2 : Row} {t1 t2 : List Row}
    (h : tablesAgreeExcept c (r1 :: t1) (r2 :: t2) = true) :
    cellsAgreeExcept c r1 r2 = true ∧ tablesAgreeExcept c t1 t2 = true := by
  simpa only [tablesAgreeExcept, Bool.and_eq_true] using h

theorem tae_map (c : String) (g : Row → Row)
    (hg : ∀ r1 r2, cellsAgreeExcept c r1 r2 = true →
      cellsAgreeExcept c (g r1) (g r2) = true)
    (t1 t2 : List Row) (h : tablesAgreeExcept c t1 t2 = true) :
    tablesAgreeExcept c (t1.map g) (t2.map g) = true := by
  induction t1 generalizing t2 with
  | nil =>
      cases t2 with
      | nil => rfl
      | cons r t => simp [tablesAgreeExcept] at h
  | cons r1 t1 ih =>
      cases t2 with
      | nil => simp [tablesAgreeExcept] at h
      | cons r2 t2 =>
          obtain ⟨h1, h2⟩ := tae_elim h
          simp only [List.map_cons, tablesAgreeExcept, Bool.and_eq_true]
          exact ⟨hg r1 r2 h1, ih t2 h2⟩

theorem tae_map_eq (c : String) (g : Row → Row)
    (hg : ∀ r1 r2, cellsAgreeExcept c r1 r2 = true → g r1 = g r2)
    (t1 t2 : List Row) (h : tablesAgreeExcept c t1 t2 = true) :
    t1.map g = t2.map g := by
  induction t1 generalizing t2 with
  | nil =>
      cases t2 with
      | nil => rfl
      | cons r t => simp [tablesAgreeExcept] at h
  | cons r1 t1 ih =>
      cases t2 with
      | nil => simp [tablesAgreeExcept] at h
      | cons r2 t2 =>
          obtain ⟨h1, h2⟩ := tae_elim h
          simp only [List.map_cons]
          rw [hg r1 r2 h1, ih t2 h2]

theorem tae_filter (c : String) (p : Row → Bool)
    (hp : ∀ r1 r2, cellsAgreeExcept c r1 r2 = true → p r1 = p r2)
    (t1 t2 : List Row) (h : tablesAgreeExcept c t1 t2 = true) :
    tablesAgreeExcept c (t1.filter p) (t2.filter p) = true := by
  induction t1 generalizing t2 with
  | nil =>
      cases t2 with
      | nil => rfl
      | cons r t => simp [tablesAgreeExcept] at h
  | cons r1 t1 ih =>
      cases t2 with
      | nil => simp [tablesAgreeExcept] at h
      | cons r2 t2 =>
          obtain ⟨h1, h2⟩ := tae_elim h
          simp only [List.filter_cons]
          rw [← hp r1 r2 h1]
          by_cases hr : p r1 = true
          · simp only [hr, if_true, tablesAgreeExcept, Bool.and_eq_true]
            exact ⟨h1, ih t2 h2⟩
          · simp only [Bool.not_eq_true] at hr
            simp only [hr, Bool.false_eq_true, if_false]
            exact ih t2 h2

theorem tae_append (c : String) (a1 a2 b1 b2 : List Row)
    (ha : tablesAgreeExcept c a1 a2 = true)
    (hb : tablesAgreeExcept c b1 b2 = true) :
    tablesAgreeExcept c (a1 ++ b1) (a2 ++ b2) = true := by
  induction a1 generalizing a2 with
  | nil =>
      cases a2 with
      | nil => exact hb
      | cons r t => simp [tablesAgreeExcept] at ha
  | cons r1 t1 ih =>
      cases a2 with
      | nil => simp [tablesAgreeExcept] at ha
      | cons r2 t2 =>
          obtain ⟨h1, h2⟩ := tae_elim ha
          simp only [List.cons_append, tablesAgreeExcept, Bool.and_eq_true]
          exact ⟨h1, ih t2 h2⟩

theorem xToN_xToN (v : Value) : xToN (xToN v) = xToN v := by
  cases v with
  | str s =>
      by_cases h : s = "X"
      · rw [h]; rfl
      · have h1 : xToN (Value.str s) = Value.str s := by simp [xToN, h]
        rw [h1, h1]
  | na => rfl
  | num q => rfl
  | bool b => rfl

/-- What the generators pipeline writes into the
`syncronized_transmission_grid` cell of a kept row: the boolean mapping of
the `'X'`-rewritten, sentinel-cleaned `heat_bypass_recovery` cell — not
anything derived from the row's own `syncronized_transmission_grid`
cell. -/
theorem getCol_sync_genRowFix (a : Row) :
    getCol "syncronized_transmission_grid" (genRowFix a)
      = boolFix (xToN (fix_eia_na_val
          (getCol "heat_bypass_recovery" a))) := by
  simp only [genRowFix]
  set x := mapCol "heat_bypass_recovery" xToN (mapCol "duct_burners" xToN
      (generator_columns_to_fix.foldl (fun s n => mapCol n zeroSpaceToNa s)
        (mapRow fix_eia_na_val a))) with hx
  have hheat : getCol "heat_bypass_recovery" x
      = xToN (fix_eia_na_val (getCol "heat_bypass_recovery" a)) := by
    rw [hx]
    rw [getCol_mapCol_eq _ _ rfl]
    rw [getCol_mapCol_ne _ _ _ _ (by decide)]
    rw [getCol_rowFold_not_mem _ _ _ (by decide)]
    rw [getCol_mapRow fix_eia_na_val rfl]
  have hsplit : generators_boolean_columns
      = ["duct_burners", "multiple_fuels", "deliver_power_transgrid"]
        ++ "syncronized_transmission_grid" ::
          ["solid_fuel_gasification", "pulverized_coal_tech",
           "fluidized_bed_tech", "subcritical_tech", "supercritical_tech",
           "ultrasupercritical_tech", "carbon_capture", "stoker_tech",
           "other_combustion_tech", "cofire_fuels", "switch_oil_gas",
           "heat_bypass_recovery", "associated_combined_heat_power",
           "planned_modifications", "other_planned_modifications",
           "uprate_derate_during_year", "previously_canceled"] := rfl
  have hpresent : hasCol "syncronized_transmission_grid"
      (mapCol "switch_oil_gas" uToNa (mapCol "multiple_fuels" uToNa
        (setCol "syncronized_transmission_grid"
          (xToN (getCol "heat_bypass_recovery" x)) x))) = true := by
    rw [hasCol_mapCol, hasCol_mapCol]
    exact hasCol_setCol_self _ _ _
  rw [getCol_mapCol_ne _ _ _ _ (by decide)]
  rw [getCol_mapCol_ne _ _ _ _ (by decide)]
  rw [hsplit]
  rw [getCol_rowFold_once _ boolFix _ _ (by decide) (by decide) _ hpresent]
  rw [getCol_mapCol_ne _ _ _ _ (by decide)]
  rw [getCol_mapCol_ne _ _ _ _ (by decide)]
  rw [getCol_setCol_eq]
  rw [hheat, xToN_xToN]

/-- The generators pipeline maps two rows that agree except in their
`syncronized_transmission_grid` cells to the *same* output row: that cell
is overwritten from `heat_bypass_recovery` before anything reads it. -/
theorem genRowFix_eq_of_cae (r1 r2 : Row)
    (h : cellsAgreeExcept "syncronized_transmission_grid" r1 r2 = true) :
    genRowFix r1 = genRowFix r2 := by
  simp only [genRowFix]
  set x1 := mapCol "heat_bypass_recovery" xToN (mapCol "duct_burners" xToN
      (generator_columns_to_fix.foldl (fun s n => mapCol n zeroSpaceToNa s)
        (mapRow fix_eia_na_val r1))) with hx1
  set x2 := mapCol "heat_bypass_recovery" xToN (mapCol "duct_burners" xToN
      (generator_columns_to_fix.foldl (fun s n => mapCol n zeroSpaceToNa s)
        (mapRow fix_eia_na_val r2))) with hx2
  have h6 : cellsAgreeExcept "syncronized_transmission_grid" x1 x2 = true := by
    rw [hx1, hx2]
    apply cae_mapCol
    apply cae_mapCol
    apply cae_rowFold
    exact cae_mapRow _ _ _ _ h
  have hv := cae_getCol_ne "syncronized_transmission_grid"
    "heat_bypass_recovery" (by decide) x1 x2 h6
  have h7 : setCol "syncronized_transmission_grid"
      (xToN (getCol "heat_bypass_recovery" x1)) x1
      = setCol "syncronized_transmission_grid"
        (xToN (getCol "heat_bypass_recovery" x2)) x2 := by
    rw [hv]
    exact setCol_eq_of_cae _ _ _ _ h6
  rw [h7]

theorem hasIds_eq_of_cae (r1 r2 : Row)
    (h : cellsAgreeExcept "syncronized_transmission_grid" r1 r2 = true) :
    hasIds r1 = hasIds r2 := by
  simp only [hasIds]
  rw [cae_getCol_ne _ "generator_id" (by decide) _ _ h,
    cae_getCol_ne _ "plant_id_eia" (by decide) _ _ h]

theorem filter_hasIds_tagged (d : List Row) (s : String) :
    (d.map (setCol "operational_status_code" (Value.str s))).filter hasIds
      = (d.filter hasIds).map
          (setCol "operational_status_code" (Value.str s)) := by
  rw [List.filter_map]
  exact congrArg _ (List.filter_congr (fun r _ => by
    simp only [Function.comp, hasIds_setCol_status]))

/-- C10: for every input, the output `syncronized_transmission_grid`
column of the generators transformer is computed from the input
`heat_bypass_recovery` column (sentinel-cleaned, `'X'` replaced by `'N'`,
then the boolean mapping applied), and the input
`syncronized_transmission_grid` cells have no effect on any output cell:
two inputs differing only there produce identical outputs. -/
theorem C10_sync_from_heat_bypass (dfs dfs1 dfs2 : String → List Row)
    (hagree : ∀ p ∈ ["generator_existing", "generator_proposed",
        "generator_retired"],
      tablesAgreeExcept "syncronized_transmission_grid" (dfs1 p) (dfs2 p)
        = true) :
    (generators dfs).map (getCol "syncronized_transmission_grid")
      = ((dfs "generator_existing" ++ dfs "generator_proposed"
          ++ dfs "generator_retired").filter hasIds).map
          (fun r => boolFix (xToN (fix_eia_na_val
            (getCol "heat_bypass_recovery" r))))
    ∧ generators dfs1 = generators dfs2 := by
  constructor
  · rw [generators_decomp dfs]
    have hseg3 : ∀ (d : List Row) (s : String),
        ((d.map (setCol "operational_status_code" (Value.str s))).filter
          hasIds).map
          (getCol "syncronized_transmission_grid" ∘ genRowFix)
        = (d.filter hasIds).map
            (fun r => boolFix (xToN (fix_eia_na_val
              (getCol "heat_bypass_recovery" r)))) := by
      intro d s
      rw [filter_hasIds_tagged, List.map_map]
      apply List.map_congr_left
      intro b _
      simp only [Function.comp]
      rw [getCol_sync_genRowFix]
      rw [getCol_setCol_ne _ _ _ _ (by decide)]
    simp only [List.filter_append, List.map_append, List.map_map]
    rw [hseg3 _ "existing", hseg3 _ "proposed", hseg3 _ "retired"]
  · rw [generators_decomp dfs1, generators_decomp dfs2]
    apply tae_map_eq _ genRowFix genRowFix_eq_of_cae
    apply tae_filter _ hasIds hasIds_eq_of_cae
    apply tae_append
    · apply tae_append
      · exact tae_map _ _ (cae_setCol _ _ _) _ _ (hagree _ (by simp))
      · exact tae_map _ _ (cae_setCol _ _ _) _ _ (hagree _ (by simp))
    · exact tae_map _ _ (cae_setCol _ _ _) _ _ (hagree _ (by simp))

/-- C10 witness: on a concrete row the output sync cell is the boolean
mapping of the `'X'`-rewritten heat-bypass cell, and changing the input
sync cell from `'Y'` to `'U'` leaves the whole output unchanged. -/
theorem C10_witness :
    (generators g_dfs1_C10).map (getCol "syncronized_transmission_grid")
      = ((g_dfs1_C10 "generator_existing" ++ g_dfs1_C10 "generator_proposed"
          ++ g_dfs1_C10 "generator_retired").filter hasIds).map
          (fun r => boolFix (xToN (fix_eia_na_val
            (getCol "heat_bypass_recovery" r))))
    ∧ generators g_dfs1_C10 = generators g_dfs2_C10 :=
  C10_sync_from_heat_bypass g_dfs1_C10 g_dfs1_C10 g_dfs2_C10 (by decide)

theorem foldl_append_mem {α β : Type} (g : β → List α) (years : List β)
    (init : List α) (r : α)
    (h : r ∈ years.foldl (fun df yr => df ++ g yr) init) :
    r ∈ init ∨ ∃ y ∈ years, r ∈ g y := by
  induction years generalizing init with
  | nil => exact Or.inl h
  | cons y t ih =>
      simp only [List.foldl_cons] at h
      rcases ih (init ++ g y) h with h1 | h1
      · rcases List.mem_append.mp h1 with h2 | h2
        · exact Or.inl h2
        · exact Or.inr ⟨y, by simp, h2⟩
      · obtain ⟨z, hz, hr⟩ := h1
        exact Or.inr ⟨z, by simp [hz], hr⟩

theorem foldl_append_length {α β : Type} (g : β → List α) (years : List β)
    (init : List α) :
    (years.foldl (fun df yr => df ++ g yr) init).length
      = init.length + (years.map (fun y => (g y).length)).sum := by
  induction years generalizing init with
  | nil => simp
  | cons y t ih =>
      simp only [List.foldl_cons, List.map_cons, List.sum_cons]
      rw [ih (init ++ g y)]
      simp [List.length_append]
      omega

/-- C7: a successful `get_eia923_page` run never returns a row whose
(renamed) `plant_id` cell is the sentinel 99999 on a non-stocks page, while
on the stocks page no row filter applies at all: every input row of every
requested year is retained (the output row count is the sum of the yearly
input row counts). -/
theorem C7_sentinel_99999_filter (page : String) (knownPages : List String)
    (colmap : Nat → List (String × String)) (data : Nat → List Row)
    (years : List Nat) (out : List Row)
    (h : get_eia923_page page knownPages colmap data years = some out) :
    (page ≠ "stocks" →
      ∀ r ∈ out, getCol "plant_id" r ≠ Value.num 99999) ∧
    (page = "stocks" →
      out.length = (years.map (fun y => (data y).length)).sum) := by
  simp only [get_eia923_page] at h
  by_cases h1 : years.isEmpty = true
  · rw [if_pos h1] at h; exact absurd h (by simp)
  · rw [if_neg (by simpa using h1)] at h
    by_cases h2 : years.all (fun y => 2009 ≤ y) = true
    · rw [if_neg (by simpa using h2)] at h
      by_cases h3 : knownPages.contains page = true
      · rw [if_neg (by simpa using h3)] at h
        have hout : out = years.foldl (fun df yr =>
            df ++ processYear page (colmap yr) yr (data yr)) [] := by
          have := Option.some.inj h
          exact this.symm
        constructor
        · intro hpage r hr
          rw [hout] at hr
          rcases foldl_append_mem _ years [] r hr with hmem | hmem
          · exact absurd hmem (by simp)
          · obtain ⟨y, _, hry⟩ := hmem
            simp only [processYear, if_pos hpage] at hry
            have hf := (List.mem_filter.mp hry).2
            intro hc
            rw [hc] at hf
            simp at hf
        · intro hpage
          rw [hout, foldl_append_length]
          simp only [List.length_nil, Nat.zero_add]
          congr 1
          apply List.map_congr_left
          intro y _
          simp only [processYear, hpage]
          simp [List.length_map]
      · rw [if_pos (by simpa using h3)] at h
        exact absurd h (by simp)
    · rw [if_pos (by simpa using h2)] at h
      exact absurd h (by simp)

/-- C7 witness: reading the `generation_fuel` page of the concrete sheet
drops the 99999 state-aggregate row, while reading the `stocks` page
retains both rows. -/
theorem C7_witness :
    (("generation_fuel" ≠ "stocks" →
      ∀ r ∈ [[("plant_id", Value.num 1)]],
        getCol "plant_id" r ≠ Value.num 99999) ∧
    ("generation_fuel" = "stocks" →
      (1 : Nat) = ([2011].map (fun y => (dataC7 y).length)).sum)) ∧
    (("stocks" ≠ "stocks" →
      ∀ r ∈ (get_eia923_page "stocks" ["generation_fuel", "stocks"]
          (fun _ => []) dataC7 [2011]).getD [],
        getCol "plant_id" r ≠ Value.num 99999) ∧
    ("stocks" = "stocks" →
      ((get_eia923_page "stocks" ["generation_fuel", "stocks"]
          (fun _ => []) dataC7 [2011]).getD []).length
        = ([2011].map (fun y => (dataC7 y).length)).sum)) := by
  constructor
  · have := C7_sentinel_99999_filter "generation_fuel"
      ["generation_fuel", "stocks"] (fun _ => []) dataC7 [2011]
      [[("plant_id", Value.num 1)]] (by decide)
    simpa using this
  · have := C7_sentinel_99999_filter "stocks"
      ["generation_fuel", "stocks"] (fun _ => []) dataC7 [2011]
      ((get_eia923_page "stocks" ["generation_fuel", "stocks"]
        (fun _ => []) dataC7 [2011]).getD []) (by decide)
    simpa using this

theorem y2m_yearly (md : List (Nat × String)) (y mo : List IRow) :
    (md.foldl y2mStep (y, mo)).1
      = y.map (fun r => IRow.mk r.idx
          (r.cells.filter
            (fun c => md.all (fun pm => !(strContains c.1 pm.2))))) := by
  induction md generalizing y mo with
  | nil =>
      simp only [List.foldl_nil, List.all_nil]
      symm
      have h0 : ∀ r ∈ y, (fun s : IRow => IRow.mk s.idx
          (s.cells.filter (fun _ => true))) r = id r := by
        intro r _
        cases r
        simp [List.filter_true]
      rw [List.map_congr_left h0, List.map_id]
  | cons pm t ih =>
      simp only [List.foldl_cons]
      rw [show y2mStep (y, mo) pm
          = (y.map (fun r => IRow.mk r.idx
              (r.cells.filter (fun c => !(strContains c.1 pm.2)))),
            mo ++ y.map (fun r =>
              IRow.mk r.idx (setCol "month" (Value.num (pm.1 : Rat))
                ((r.cells.filter (fun c => strContains c.1 pm.2)).map
                  (fun c => (strReplace c.1 pm.2 "", c.2)))))) from rfl]
      rw [ih]
      rw [List.map_map]
      apply List.map_congr_left
      intro r _
      simp only [Function.comp, List.filter_filter]
      congr 1
      apply List.filter_congr
      intro c _
      simp only [List.all_cons, Bool.not_and, Bool.and_comm]

theorem y2m_monthly_countP (md : List (Nat × String)) (y mo : List IRow)
    (i : Nat) :
    ((md.foldl y2mStep (y, mo)).2).countP (fun r => r.idx == i)
      = mo.countP (fun r => r.idx == i)
        + md.length * y.countP (fun r => r.idx == i) := by
  induction md generalizing y mo with
  | nil => simp
  | cons pm t ih =>
      simp only [List.foldl_cons]
      rw [show y2mStep (y, mo) pm
          = (y.map (fun r => IRow.mk r.idx
              (r.cells.filter (fun c => !(strContains c.1 pm.2)))),
            mo ++ y.map (fun r =>
              IRow.mk r.idx (setCol "month" (Value.num (pm.1 : Rat))
                ((r.cells.filter (fun c => strContains c.1 pm.2)).map
                  (fun c => (strReplace c.1 pm.2 "", c.2)))))) from rfl]
      rw [ih]
      rw [List.countP_append]
      have hmap : ∀ (f : IRow → List (String × Value)),
          (y.map (fun r => IRow.mk r.idx (f r))).countP (fun r => r.idx == i)
            = y.countP (fun r => r.idx == i) := by
        intro f
        rw [List.countP_map]
        apply List.countP_congr
        intro r _
        simp [Function.comp]
      rw [hmap, hmap, List.length_cons]
      ring

theorem mergeIdx_length (l r : List IRow) :
    (mergeIdx l r).length
      = (l.map (fun a => r.countP (fun b => b.idx == a.idx))).sum := by
  simp only [mergeIdx, List.length_flatten, List.map_map]
  congr 1
  apply List.map_congr_left
  intro a _
  simp only [Function.comp, List.length_map]
  rw [List.countP_eq_length_filter]

theorem sum_map_const {α : Type} (l : List α) (g : α → Nat) (c : Nat)
    (h : ∀ a ∈ l, g a = c) : (l.map g).sum = c * l.length := by
  induction l with
  | nil => simp
  | cons a t ih =>
      simp only [List.map_cons, List.sum_cons, List.length_cons,
        h a (by simp)]
      rw [ih (fun b hb => h b (by simp [hb]))]
      ring

theorem countP_idx_eq_one (l : List IRow) (h : (l.map IRow.idx).Nodup)
    (p : IRow) (hp : p ∈ l) :
    l.countP (fun r => r.idx == p.idx) = 1 := by
  induction l with
  | nil => simp at hp
  | cons a t ih =>
      simp only [List.map_cons, List.nodup_cons] at h
      rw [List.countP_cons]
      rcases List.mem_cons.mp hp with hpa | hpt
      · have hidx : (a.idx == p.idx) = true := by simp [hpa]
        rw [hidx, if_pos rfl]
        have hz : t.countP (fun r => r.idx == p.idx) = 0 := by
          rw [List.countP_eq_zero]
          intro b hb
          simp only [beq_iff_eq]
          intro hc
          have hba : a.idx = b.idx := by rw [hc, hpa]
          exact h.1 (by rw [hba]; exact List.mem_map_of_mem _ hb)
        omega
      · have hne : (a.idx == p.idx) = false := by
          simp only [beq_eq_false_iff_ne, ne_eq]
          intro hc
          exact h.1 (by rw [hc]; exact List.mem_map_of_mem _ hpt)
        rw [hne, ih h.2 hpt]
        simp

/-- C1: for a non-empty annual table with a unique row index and a
12-entry month-number-to-pattern dictionary (with at least one
month-pattern field group), monthly expansion returns exactly 12 times as
many rows, and every output row starts with all the non-month columns of
its parent annual row, unchanged. -/
theorem C1_monthly_expansion (df : List IRow) (md : List (Nat × String))
    (hne : df ≠ [])
    (hnodup : (df.map IRow.idx).Nodup)
    (h12 : md.length = 12)
    (hgroup : ∃ pm ∈ md, ∃ r ∈ df, ∃ c ∈ r.cells,
      strContains c.1 pm.2 = true) :
    (yearly_to_monthly_eia923 df md).length = 12 * df.length ∧
    ∀ r ∈ yearly_to_monthly_eia923 df md, ∃ p ∈ df, r.idx = p.idx ∧
      ∃ rest : List (String × Value),
        r.cells = p.cells.filter
          (fun c => md.all (fun pm => !(strContains c.1 pm.2))) ++ rest := by
  simp only [yearly_to_monthly_eia923]
  constructor
  · rw [mergeIdx_length]
    have hconst : ∀ a ∈ (md.foldl y2mStep (df, [])).1,
        ((md.foldl y2mStep (df, [])).2).countP (fun b => b.idx == a.idx)
          = 12 := by
      intro a ha
      rw [y2m_yearly] at ha
      obtain ⟨p, hp, hap⟩ := List.mem_map.mp ha
      have haidx : a.idx = p.idx := by rw [← hap]
      rw [y2m_monthly_countP md df [] a.idx]
      simp only [List.countP_nil, Nat.zero_add, h12]
      rw [haidx, countP_idx_eq_one df hnodup p hp]
    rw [sum_map_const _ _ 12 hconst, y2m_yearly, List.length_map]
  · intro r hr
    simp only [mergeIdx] at hr
    rw [List.mem_flatten] at hr
    obtain ⟨inner, hinner, hrin⟩ := hr
    obtain ⟨a, ha, hain⟩ := List.mem_map.mp hinner
    rw [← hain] at hrin
    obtain ⟨b, _, hbr⟩ := List.mem_map.mp hrin
    rw [y2m_yearly] at ha
    obtain ⟨p, hp, hap⟩ := List.mem_map.mp ha
    refine ⟨p, hp, ?_, b.cells, ?_⟩
    · rw [← hbr, ← hap]
    · rw [← hbr, ← hap]

/-- C1 witness: expanding the one-row annual table yields 12 monthly rows,
each carrying the non-month column unchanged. -/
theorem C1_witness :
    (yearly_to_monthly_eia923 dfC1 md12C1).length = 12 * dfC1.length ∧
    ∀ r ∈ yearly_to_monthly_eia923 dfC1 md12C1, ∃ p ∈ dfC1,
      r.idx = p.idx ∧
      ∃ rest : List (String × Value),
        r.cells = p.cells.filter
          (fun c => md12C1.all (fun pm => !(strContains c.1 pm.2))) ++ rest :=
  C1_monthly_expansion dfC1 md12C1 (by decide) (by decide) (by decide)
    (by decide)
